import Mathlib

/-!
Verification of the request-governance layer of the brainquizz client.

The development shallowly embeds the four cooperating source files:
  * `src/utils/requestCache.js`   — `RequestCache` (response cache + pending-request
    deduplicator), `cacheConfig` / `getCacheTimeout`, and the periodic cache sweep;
  * the request throttle file (`RequestThrottle`): priority queue, drain loop,
    inter-batch timer and the 30-second staleness sweep, embedded as an explicit
    single-threaded event-loop state machine;
  * the cache-aware fetch hook (`useApiCache.fetchData`), embedded with explicit
    state for the pending-request map and the retry counter;
  * the batch runner (`useBatchApi.executeBatch`), embedded as a pure function on
    the list of settled call outcomes.

Promises are modelled by handles (`Nat` identifiers); settlement of a promise is an
explicit event that records the settled outcome for its handle.  Timestamps are `Nat`
milliseconds (`Date.now()`); JavaScript's `now - t > timeout` comparisons on
non-negative clock values coincide with truncated `Nat` subtraction.
-/

/-- Entry stored by `RequestCache.set`: the cached data plus the `Date.now()`
timestamp at which it was stored (source lines 31-37). -/
structure CacheEntry (α : Type) where
  data : α
  timestamp : Nat
  deriving DecidableEq

/-- State of the `RequestCache` class (requestCache.js lines 2-7).  `cache` and
`pendingRequests` model the two `Map`s as association lists with unique keys.
A pending entry maps a key to the handle of the in-flight promise.
`settledOutcomes`, `invocations` and `nextHandle` are ghost fields recording,
respectively, the outcome each settled promise handle settled to, how many times
a `requestFn` has been invoked by `deduplicate`, and the next fresh handle. -/
structure RequestCache (ε α : Type) where
  cache : List (String × CacheEntry α)
  cacheTimeout : Nat
  pendingRequests : List (String × Nat)
  settledOutcomes : List (Nat × Except ε α)
  invocations : Nat
  nextHandle : Nat

/-- Constructor state (requestCache.js lines 3-7): empty maps, 5-minute default
timeout. -/
def RequestCache.empty (ε α : Type) : RequestCache ε α :=
  { cache := []
    cacheTimeout := 5 * 60 * 1000
    pendingRequests := []
    settledOutcomes := []
    invocations := 0
    nextHandle := 0 }

/-- `RequestCache.get` (requestCache.js lines 16-28): return `none` when the key is
absent; when present and `now - timestamp > cacheTimeout`, delete the entry and
return `none`; otherwise return the stored data.  The returned state is the cache
after the lookup's eviction side effect (`Map.delete`, which removes the key). -/
def RequestCache.get (s : RequestCache ε α) (key : String) (now : Nat) :
    Option α × RequestCache ε α :=
  match s.cache.lookup key with
  | none => (none, s)
  | some cached =>
    if now - cached.timestamp > s.cacheTimeout then
      (none, { s with cache := s.cache.filter (fun kv => !(kv.1 == key)) })
    else
      (some cached.data, s)

/-- `RequestCache.set` (requestCache.js lines 31-37): store `data` with the current
timestamp, unconditionally replacing any prior entry for the key. -/
def RequestCache.set (s : RequestCache ε α) (key : String) (data : α) (now : Nat) :
    RequestCache ε α :=
  { s with cache := (key, ⟨data, now⟩) :: s.cache.filter (fun kv => !(kv.1 == key)) }

/-- `RequestCache.clear` (requestCache.js lines 46-50): empties both the cache map
and the pending-request map. -/
def RequestCache.clear (s : RequestCache ε α) : RequestCache ε α :=
  { s with cache := [], pendingRequests := [] }

/-- `RequestCache.deduplicate` (requestCache.js lines 64-73, the part that runs
synchronously before the first suspension point): if the key already has a pending
promise, return its handle without invoking `requestFn`; otherwise invoke
`requestFn` (ghost counter `invocations` increments), register a fresh handle for
the key and return it.  Result is `(handle, invokedNow, newState)`. -/
def RequestCache.deduplicate (s : RequestCache ε α) (key : String) :
    Nat × Bool × RequestCache ε α :=
  match s.pendingRequests.lookup key with
  | some h => (h, false, s)
  | none =>
    (s.nextHandle, true,
      { s with
        pendingRequests := (key, s.nextHandle) :: s.pendingRequests
        invocations := s.invocations + 1
        nextHandle := s.nextHandle + 1 })

/-- Settlement continuation of `deduplicate` (requestCache.js lines 75-82): when the
in-flight promise for `key` settles with outcome `o` — success or failure alike —
the registration is removed from `pendingRequests` and the outcome is recorded
against the promise handle. -/
def RequestCache.settlePending (s : RequestCache ε α) (key : String)
    (o : Except ε α) : RequestCache ε α :=
  match s.pendingRequests.lookup key with
  | some h =>
    { s with
      pendingRequests := s.pendingRequests.filter (fun kv => !(kv.1 == key))
      settledOutcomes := (h, o) :: s.settledOutcomes }
  | none => s

/-- The periodic cache sweep (requestCache.js lines 144-151): every entry with
`now - timestamp > requestCache.cacheTimeout` is removed.  The sweep consults the
instance-wide `cacheTimeout`, not any per-entry or per-category timeout. -/
def RequestCache.cacheCleanup (s : RequestCache ε α) (now : Nat) :
    RequestCache ε α :=
  { s with cache := s.cache.filter (fun kv => !(now - kv.2.timestamp > s.cacheTimeout)) }

/-- Events of a deduplication session for one fixed key: a caller invoking
`deduplicate`, or the in-flight promise settling with outcome `o`. -/
inductive DedupEvent (ε α : Type) where
  | call : DedupEvent ε α
  | settle : Except ε α → DedupEvent ε α

/-- Run a sequence of deduplication events against a `RequestCache` state for a
fixed key, collecting the promise handle returned to each caller in order. -/
def RequestCache.dedupRun (s : RequestCache ε α) (key : String) :
    List (DedupEvent ε α) → RequestCache ε α × List Nat
  | [] => (s, [])
  | DedupEvent.call :: evs =>
    let r := s.deduplicate key
    let rest := RequestCache.dedupRun r.2.2 key evs
    (rest.1, r.1 :: rest.2)
  | DedupEvent.settle o :: evs =>
    RequestCache.dedupRun (s.settlePending key o) key evs

/-- Substring test on lists, modelling JavaScript `String.prototype.includes`
restricted to the receiver's character list. -/
def listContains [BEq β] : List β → List β → Bool
  | l, pat =>
    match l with
    | [] => pat.isEmpty
    | _ :: tl => pat.isPrefixOf l || listContains tl pat

/-- `url.includes(endpoint)` on Lean strings. -/
def strContains (s pat : String) : Bool :=
  listContains s.data pat.data

/-- ASCII uppercase of one character, as `String.prototype.toUpperCase` acts on
the ASCII method names involved here. -/
def charUpper (c : Char) : Char :=
  if 97 <= c.toNat && c.toNat <= 122 then Char.ofNat (c.toNat - 32) else c

/-- `method.toUpperCase()` for ASCII strings. -/
def upperString (s : String) : String := ⟨s.data.map charUpper⟩

/-- `cacheConfig`'s category tiers (requestCache.js lines 99-122) in
`Object.entries` iteration order: master data (10 minutes), user data (5 minutes),
dynamic data (2 minutes).  Each tier carries its endpoint substrings. -/
def cacheConfigTiers : List (Nat × List String) :=
  [ (10 * 60 * 1000, ["/kategori/", "/tingkatan/", "/pendidikan/"]),
    (5 * 60 * 1000, ["/user/", "/kelas/get-kelas"]),
    (2 * 60 * 1000, ["/kuis/", "/soal/"]) ]

/-- `cacheConfig.noCache.methods` (requestCache.js lines 119-121). -/
def noCacheMethods : List String := ["POST", "PUT", "DELETE", "PATCH"]

/-- `getCacheTimeout` (requestCache.js lines 125-141): 0 for mutating methods;
otherwise the first tier one of whose endpoint substrings occurs in the url;
otherwise the global instance default of 5 minutes. -/
def getCacheTimeout (url method : String) : Nat :=
  if noCacheMethods.contains (upperString method) then 0
  else
    match cacheConfigTiers.find? (fun tier => tier.2.any (fun ep => strContains url ep)) with
    | some tier => tier.1
    | none => 5 * 60 * 1000

/-- Result of one top-level `fetchData` call as observed by its caller: a settled
success, a settled failure, or a promise that never settles. -/
inductive FetchResult (ε α : Type) where
  | ok : α → FetchResult ε α
  | err : ε → FetchResult ε α
  | unsettled : FetchResult ε α
  deriving DecidableEq

/-- State shared across (re-entrant) `fetchData` calls for one cache key:
`cache` is the `globalCache` entry for the key (`none` = miss; entries here are
within `cacheDuration`, which suffices because a failing operation never stores
one), `pendingSelf` says whether `pendingRequests` holds this call chain's own
`requestPromise` for the key, `retryRef` is `retryCountRef.current`, and
`invocations` counts calls of `apiFunction`. -/
structure FetchState (α : Type) where
  cache : Option α
  pendingSelf : Bool
  retryRef : Nat
  invocations : Nat
  deriving DecidableEq

/-- `useApiCache.fetchData` (hook source lines 36-133).  `op n` is the settled
outcome of the `n`-th invocation of `apiFunction`.  Control flow mirrors the
source: cache check (skipped on retry), pending-request join, then the guarded
invocation with the retry branch.  The pending-request join awaits the promise
stored for the key; on the retry path that stored promise is the very
`requestPromise` whose settlement is blocked on this call, so the await can never
resume — modelled as `FetchResult.unsettled`, after which the outer `finally`
(line 132) never runs, so the registration stays in place. -/
def fetchData (op : Nat → Except ε α) (retryCount : Nat) :
    Bool → FetchState α → FetchResult ε α × FetchState α
  | isRetry, st =>
    let cacheHit : Option α :=
      match st.cache, isRetry with
      | some v, false => some v
      | _, _ => none
    match cacheHit with
    | some v => (FetchResult.ok v, st)
    | none =>
      if hp : st.pendingSelf then
        (FetchResult.unsettled, st)
      else
        let st1 : FetchState α :=
          { st with pendingSelf := true, invocations := st.invocations + 1 }
        match op st.invocations with
        | Except.ok a =>
          (FetchResult.ok a,
            { st1 with cache := some a, retryRef := 0, pendingSelf := false })
        | Except.error e =>
          if st1.retryRef < retryCount then
            let st2 : FetchState α := { st1 with retryRef := st1.retryRef + 1 }
            let r := fetchData op retryCount true st2
            match r.1 with
            | FetchResult.unsettled => (FetchResult.unsettled, r.2)
            | FetchResult.ok a => (FetchResult.ok a, { r.2 with pendingSelf := false })
            | FetchResult.err e2 => (FetchResult.err e2, { r.2 with pendingSelf := false })
          else
            (FetchResult.err e, { st1 with pendingSelf := false })
  termination_by isRetry st => (if st.pendingSelf then 0 else 1)
  decreasing_by
    simp [hp]

/-- Outcome placeholder of the per-call wrapper in `useBatchApi.executeBatch`
(hook source lines 202-211): a failed call maps to `null`, a successful call to
its result. -/
def settledValue : Except ε α → Option α
  | Except.ok a => some a
  | Except.error _ => none

/-- Partition of the calls list into consecutive groups of `batchSize`, mirroring
the loop `for (let i = 0; i < apiCalls.length; i += batchSize)` (lines 198-199).
With `batchSize = 0` and a non-empty list the loop never advances `i`, so the
function never returns: modelled as `none`. -/
def batchChunks : Nat → List β → Option (List (List β))
  | _, [] => some []
  | 0, _ :: _ => none
  | n + 1, b :: bs =>
    (batchChunks (n + 1) ((b :: bs).drop (n + 1))).map
      (fun rest => (b :: bs).take (n + 1) :: rest)
  termination_by n l => l.length
  decreasing_by
    simp only [List.length_drop, List.length_cons]
    omega

/-- `useBatchApi.executeBatch` (hook source lines 188-239) as a function of the
settled outcomes of the individual calls: chunk the calls, settle every chunk
(one failure never aborts siblings), and write each outcome at its input
position; `none` marks the divergent `batchSize = 0` loop. -/
def executeBatch (calls : List (Except ε α)) (batchSize : Nat) :
    Option (List (Option α)) :=
  (batchChunks batchSize calls).map
    (fun chunks => (chunks.map (List.map settledValue)).flatten)

/-- `this.maxConcurrent = 3` (throttle source line 7). -/
def maxConcurrent : Nat := 3

/-- `this.requestDelay = 100` (throttle source line 8). -/
def requestDelay : Nat := 100

/-- Staleness horizon of the queue cleanup interval (throttle source line 151):
queued tasks older than 30000 ms are removed. -/
def staleLimit : Nat := 30000

/-- Queued task (throttle source lines 35-41): submission-order identifier (which
also identifies the caller's outcome promise), numeric priority, and the
`Date.now()` timestamp recorded at submission. -/
structure QTask where
  id : Nat
  priority : Nat
  timestamp : Nat
  deriving DecidableEq

/-- Stable insertion of a task into a descending-priority list: the new element
goes before the first strictly lower-priority element, hence after every element
of greater or equal priority. -/
def insertDesc (t : QTask) : List QTask → List QTask
  | [] => [t]
  | x :: xs => if x.priority <= t.priority then t :: x :: xs else x :: insertDesc t xs

/-- Stable sort by descending priority, modelling
`this.requestQueue.sort((a, b) => b.priority - a.priority)` (throttle source
line 44); JavaScript's sort is stable, and a stable sort's output is uniquely
determined, so insertion sort is an exact model. -/
def sortDesc : List QTask → List QTask
  | [] => []
  | x :: xs => insertDesc x (sortDesc xs)

/-- How a drain was triggered: directly by `queueRequest` calling `processQueue`,
or by the `setTimeout(() => this.processQueue(), this.requestDelay)` timer. -/
inductive Trigger where
  | bySubmit : Trigger
  | byTimer : Trigger
  deriving DecidableEq

/-- Observable scheduling events, newest first in the log: a batch of task ids
dispatched at a time, or a whole batch having settled at a time (the
`Promise.allSettled` continuation, throttle source lines 67-69). -/
inductive ThrottleEvent where
  | dispatch : Nat → Trigger → List Nat → ThrottleEvent
  | batchDone : Nat → ThrottleEvent
  deriving DecidableEq

/-- State of the throttle's single-threaded event loop.  `queue` is
`this.requestQueue`, `active` the ids of dispatched-but-unsettled tasks,
`isProcessing` the drain guard, `timers` the deadlines of pending
`setTimeout(processQueue)` callbacks, `settled` the ids whose caller promise has
been resolved or rejected, `dropped` the ids discarded by the staleness cleanup,
`nextId` the next submission identifier, `now` the clock, and `log` the event
history (newest first). -/
structure ThrottleState where
  now : Nat
  queue : List QTask
  active : List Nat
  settled : List Nat
  dropped : List Nat
  isProcessing : Bool
  timers : List Nat
  nextId : Nat
  log : List ThrottleEvent
  deriving DecidableEq

/-- Initial throttle state (constructor, throttle source lines 3-9). -/
def ThrottleState.init : ThrottleState :=
  { now := 0
    queue := []
    active := []
    settled := []
    dropped := []
    isProcessing := false
    timers := []
    nextId := 0
    log := [] }

/-- `processQueue` up to its first suspension point (throttle source lines
51-64): return unless the guard passes; otherwise set `isProcessing`, shift
tasks from the queue front while fewer than `maxConcurrent` have been taken, and
dispatch them (each `executeRequest` invokes `task.requestFn()` synchronously
before suspending, so the whole batch is dispatched within this atomic step). -/
def ThrottleState.processQueue (tr : Trigger) (s : ThrottleState) : ThrottleState :=
  if s.isProcessing || s.queue.isEmpty then s
  else
    let k := min maxConcurrent s.queue.length
    let batch := (s.queue.take k).map QTask.id
    { s with
      queue := s.queue.drop k
      active := s.active ++ batch
      isProcessing := true
      log := ThrottleEvent.dispatch s.now tr batch :: s.log }

/-- `queueRequest` (throttle source lines 33-48): push a task carrying the
current timestamp, re-sort the queue by descending priority (stable), and call
`processQueue` synchronously. -/
def ThrottleState.queueRequest (p : Nat) (s : ThrottleState) : ThrottleState :=
  ThrottleState.processQueue Trigger.bySubmit
    { s with
      queue := sortDesc (s.queue ++ [⟨s.nextId, p, s.now⟩])
      nextId := s.nextId + 1 }

/-- Settlement of one dispatched task `i` (its `requestFn` promise settles and
`executeRequest` resolves or rejects the caller's promise, throttle source lines
78-85).  When `i` was the last unsettled task of the batch, the
`Promise.allSettled` continuation (lines 67-74) runs in the same event-loop
turn: clear `isProcessing` and, if the queue is non-empty, schedule a
`processQueue` timer `requestDelay` from now. -/
def ThrottleState.settleTask (i : Nat) (s : ThrottleState) : ThrottleState :=
  if i ∈ s.active then
    let active' := s.active.erase i
    let s1 := { s with active := active', settled := i :: s.settled }
    if active'.isEmpty && s.isProcessing then
      let s2 := { s1 with
        isProcessing := false
        log := ThrottleEvent.batchDone s.now :: s1.log }
      if s2.queue.isEmpty then s2
      else { s2 with timers := (s.now + requestDelay) :: s2.timers }
    else s1
  else s

/-- Firing of a pending `setTimeout(() => this.processQueue(), requestDelay)`
callback with deadline `d` (throttle source line 73): only enabled once the
clock has reached the deadline; the callback just calls `processQueue`. -/
def ThrottleState.timerFire (d : Nat) (s : ThrottleState) : ThrottleState :=
  if d ∈ s.timers && d <= s.now then
    ThrottleState.processQueue Trigger.byTimer { s with timers := s.timers.erase d }
  else s

/-- The staleness cleanup interval (throttle source lines 148-153): keep exactly
the queued tasks with `now - timestamp < 30000`; the removed tasks' ids are
recorded as dropped.  Nothing is dispatched and no caller promise is settled. -/
def ThrottleState.cleanupQueue (s : ThrottleState) : ThrottleState :=
  { s with
    queue := s.queue.filter (fun t => s.now - t.timestamp < staleLimit)
    dropped := ((s.queue.filter (fun t => !(s.now - t.timestamp < staleLimit))).map QTask.id)
      ++ s.dropped }

/-- Clock advance by `d` milliseconds. -/
def ThrottleState.tick (d : Nat) (s : ThrottleState) : ThrottleState :=
  { s with now := s.now + d }

/-- Event-loop stimuli: a `queueRequest` call with a priority, settlement of one
dispatched task, a timer callback with deadline `d`, one run of the staleness
cleanup interval, or the passage of time. -/
inductive ThrottleCmd where
  | submit : Nat → ThrottleCmd
  | settle : Nat → ThrottleCmd
  | timerFire : Nat → ThrottleCmd
  | cleanup : ThrottleCmd
  | tick : Nat → ThrottleCmd
  deriving DecidableEq

/-- One event-loop turn. -/
def throttleStep (s : ThrottleState) : ThrottleCmd → ThrottleState
  | ThrottleCmd.submit p => s.queueRequest p
  | ThrottleCmd.settle i => s.settleTask i
  | ThrottleCmd.timerFire d => s.timerFire d
  | ThrottleCmd.cleanup => s.cleanupQueue
  | ThrottleCmd.tick d => s.tick d

/-- Execution of a stimulus sequence from the initial state; every state of the
event loop reachable from startup is `throttleRun cmds` for some `cmds`. -/
def throttleRun (cmds : List ThrottleCmd) : ThrottleState :=
  cmds.foldl throttleStep ThrottleState.init

/-- Dispatch-order relation claimed for the queue: an earlier queue element has
strictly higher priority, or equal priority and an earlier submission id (FIFO
within a priority band). -/
def qRel (a b : QTask) : Prop :=
  b.priority < a.priority ∨ (a.priority = b.priority ∧ a.id < b.id)

/-- Weak descending-priority relation between queue neighbours. -/
def wRel (a b : QTask) : Prop :=
  b.priority ≤ a.priority

/-- Insertion of a fresh task into an already-sorted queue: after every element
of greater or equal priority, before the first strictly smaller one.  On sorted
queues this is what one `push`-then-stable-`sort` round amounts to. -/
def pushInsert (t : QTask) : List QTask → List QTask
  | [] => [t]
  | x :: xs => if x.priority < t.priority then t :: x :: xs else x :: pushInsert t xs

/-- Inductive invariant of the throttle event loop.  `bound` is the claimed
concurrency bound; `idle` says a non-draining loop has no dispatched-unsettled
task; `timer` says every pending inter-batch timer was scheduled, with deadline
`batch completion time + requestDelay`, by a batch completion recorded in the
log; `droppedGone` says a swept task is in no live set; `fresh`, `qNodup` and
`qDisjoint` are bookkeeping (ids are allocated in submission order and never
shared between the queue and the dispatched or settled sets); `sorted` says the
queue is ordered by descending priority, FIFO among equal priorities. -/
structure ThrottleInv (s : ThrottleState) : Prop where
  bound : s.active.length <= maxConcurrent
  idle : s.isProcessing = false → s.active = []
  timer : ∀ d ∈ s.timers, ∃ u, d = u + requestDelay ∧ ThrottleEvent.batchDone u ∈ s.log
  droppedGone : ∀ i ∈ s.dropped,
    ¬ i ∈ s.queue.map QTask.id ∧ ¬ i ∈ s.active ∧ ¬ i ∈ s.settled
  fresh : ∀ i, (i ∈ s.queue.map QTask.id ∨ i ∈ s.active ∨ i ∈ s.settled ∨ i ∈ s.dropped) →
    i < s.nextId
  qNodup : (s.queue.map QTask.id).Nodup
  qDisjoint : ∀ i ∈ s.queue.map QTask.id, ¬ i ∈ s.active ∧ ¬ i ∈ s.settled
  sorted : List.Pairwise qRel s.queue

theorem insertDesc_perm (t : QTask) (l : List QTask) :
    List.Perm (insertDesc t l) (t :: l) := by
  induction l with
  | nil => simp [insertDesc]
  | cons x xs ih =>
    by_cases h : x.priority <= t.priority
    · simp [insertDesc, h]
    · simp only [insertDesc, if_neg h]
      exact (ih.cons x).trans (List.Perm.swap t x xs)

theorem sortDesc_perm (l : List QTask) : List.Perm (sortDesc l) l := by
  induction l with
  | nil => simp [sortDesc]
  | cons x xs ih =>
    exact (insertDesc_perm x (sortDesc xs)).trans (ih.cons x)

theorem mem_pushInsert {y t : QTask} {l : List QTask} :
    y ∈ pushInsert t l ↔ y = t ∨ y ∈ l := by
  induction l with
  | nil => simp [pushInsert]
  | cons x xs ih =>
    by_cases h : x.priority < t.priority
    · simp [pushInsert, h]
    · simp only [pushInsert, if_neg h, List.mem_cons, ih]
      tauto

theorem insertDesc_of_le {x : QTask} {l : List QTask}
    (h : ∀ y ∈ l, y.priority <= x.priority) : insertDesc x l = x :: l := by
  cases l with
  | nil => rfl
  | cons z zs =>
    have hz : z.priority <= x.priority := h z (by simp)
    simp [insertDesc, hz]

theorem pushInsert_of_lt {t : QTask} {l : List QTask}
    (h : ∀ y ∈ l, y.priority < t.priority) : pushInsert t l = t :: l := by
  cases l with
  | nil => rfl
  | cons z zs =>
    have hz : z.priority < t.priority := h z (by simp)
    simp [pushInsert, hz]

theorem sortDesc_push {q : List QTask} (t : QTask)
    (hq : List.Pairwise wRel q) : sortDesc (q ++ [t]) = pushInsert t q := by
  induction q with
  | nil => simp [sortDesc, insertDesc, pushInsert]
  | cons x q' ih =>
    have hdom : ∀ y ∈ q', y.priority <= x.priority :=
      fun y hy => (List.pairwise_cons.mp hq).1 y hy
    have hq' : List.Pairwise wRel q' := (List.pairwise_cons.mp hq).2
    have hstep : sortDesc ((x :: q') ++ [t]) = insertDesc x (pushInsert t q') := by
      rw [List.cons_append, sortDesc, ih hq']
    rw [hstep]
    by_cases hx : x.priority < t.priority
    · have h1 : pushInsert t q' = t :: q' :=
        pushInsert_of_lt (fun y hy => lt_of_le_of_lt (hdom y hy) hx)
      have h2 : insertDesc x (t :: q') = t :: insertDesc x q' := by
        simp [insertDesc, Nat.not_le.mpr hx]
      rw [h1, h2, insertDesc_of_le hdom, pushInsert, if_pos hx]
    · have hle : ∀ y ∈ pushInsert t q', y.priority <= x.priority := by
        intro y hy
        rcases mem_pushInsert.mp hy with rfl | hy'
        · exact Nat.not_lt.mp hx
        · exact hdom y hy'
      rw [insertDesc_of_le hle, pushInsert, if_neg hx]

theorem qRel_imp_wRel {a b : QTask} (h : qRel a b) : wRel a b := by
  rcases h with h | ⟨h, _⟩
  · exact Nat.le_of_lt h
  · exact Nat.le_of_eq h.symm

theorem pairwise_pushInsert {q : List QTask} {t : QTask}
    (hq : List.Pairwise qRel q) (hfresh : ∀ y ∈ q, y.id < t.id) :
    List.Pairwise qRel (pushInsert t q) := by
  induction q with
  | nil => simp [pushInsert]
  | cons x q' ih =>
    have hx1 : ∀ y ∈ q', qRel x y := (List.pairwise_cons.mp hq).1
    have hq' : List.Pairwise qRel q' := (List.pairwise_cons.mp hq).2
    by_cases hx : x.priority < t.priority
    · rw [pushInsert, if_pos hx]
      refine List.pairwise_cons.mpr ⟨?_, hq⟩
      intro y hy
      rcases List.mem_cons.mp hy with rfl | hy'
      · exact Or.inl hx
      · exact Or.inl (lt_of_le_of_lt (qRel_imp_wRel (hx1 y hy')) hx)
    · rw [pushInsert, if_neg hx]
      refine List.pairwise_cons.mpr ⟨?_, ih hq' (fun y hy => hfresh y (by simp [hy]))⟩
      intro y hy
      rcases mem_pushInsert.mp hy with rfl | hy'
      · rcases Nat.lt_or_ge y.priority x.priority with hlt | hge
        · exact Or.inl hlt
        · have hpe : x.priority = y.priority := Nat.le_antisymm hge (Nat.not_lt.mp hx)
          exact Or.inr ⟨hpe, hfresh x (by simp)⟩
      · exact hx1 y hy'

theorem processQueue_inv {s : ThrottleState} (tr : Trigger) (h : ThrottleInv s) :
    ThrottleInv (ThrottleState.processQueue tr s) := by
  unfold ThrottleState.processQueue
  by_cases hg : (s.isProcessing || s.queue.isEmpty) = true
  · rw [if_pos hg]
    exact h
  · rw [if_neg hg]
    have hproc : s.isProcessing = false := by
      revert hg
      cases s.isProcessing <;> simp
    have hactive : s.active = [] := h.idle hproc
    set k := min maxConcurrent s.queue.length with hk
    have hkle : k <= s.queue.length := Nat.min_le_right _ _
    have hbatchlen : ((s.queue.take k).map QTask.id).length = k := by
      simp [List.length_take, Nat.min_eq_left hkle]
    have hsubQ : List.Sublist ((s.queue.drop k).map QTask.id) (s.queue.map QTask.id) := by
      rw [List.map_drop]
      exact List.drop_sublist _ _
    have hsubB : List.Sublist ((s.queue.take k).map QTask.id) (s.queue.map QTask.id) := by
      rw [List.map_take]
      exact List.take_sublist _ _
    refine ⟨?_, ?_, ?_, ?_, ?_, ?_, ?_, ?_⟩
    · simp only [hactive, List.nil_append]
      rw [hbatchlen]
      exact Nat.min_le_left _ _
    · intro hfalse
      simp at hfalse
    · intro d hd
      rcases h.timer d hd with ⟨u, hu, hmem⟩
      exact ⟨u, hu, List.mem_cons_of_mem _ hmem⟩
    · intro i hi
      rcases h.droppedGone i hi with ⟨h1, h2, h3⟩
      refine ⟨fun hc => h1 (hsubQ.mem hc), ?_, h3⟩
      simp only [List.mem_append]
      rintro (hc | hc)
      · exact h2 hc
      · exact h1 (hsubB.mem hc)
    · intro i hi
      apply h.fresh
      simp only [List.mem_append] at hi
      rcases hi with hq | hq | hq | hq
      · exact Or.inl (hsubQ.mem hq)
      · rcases hq with hq' | hq'
        · exact Or.inr (Or.inl hq')
        · exact Or.inl (hsubB.mem hq')
      · exact Or.inr (Or.inr (Or.inl hq))
      · exact Or.inr (Or.inr (Or.inr hq))
    · exact List.Nodup.sublist hsubQ h.qNodup
    · intro i hi
      have hiq : i ∈ s.queue.map QTask.id := hsubQ.mem hi
      rcases h.qDisjoint i hiq with ⟨h1, h2⟩
      refine ⟨?_, h2⟩
      simp only [List.mem_append]
      rintro (hc | hc)
      · exact h1 hc
      · have hnodup := h.qNodup
        rw [← List.take_append_drop k (s.queue.map QTask.id), List.nodup_append] at hnodup
        rw [List.map_drop] at hi
        rw [List.map_take] at hc
        exact hnodup.2.2 hc hi
    · exact List.Pairwise.sublist (List.drop_sublist _ _) h.sorted

theorem queueRequest_inv {s : ThrottleState} (p : Nat) (h : ThrottleInv s) :
    ThrottleInv (ThrottleState.queueRequest p s) := by
  apply processQueue_inv
  set t : QTask := ⟨s.nextId, p, s.now⟩ with ht
  have hperm : List.Perm (sortDesc (s.queue ++ [t])) (s.queue ++ [t]) :=
    sortDesc_perm _
  have hpermId : List.Perm ((sortDesc (s.queue ++ [t])).map QTask.id)
      ((s.queue.map QTask.id) ++ [t.id]) := by
    simpa using hperm.map QTask.id
  have hmemId : ∀ i, i ∈ (sortDesc (s.queue ++ [t])).map QTask.id ↔
      i ∈ s.queue.map QTask.id ∨ i = t.id := by
    intro i
    rw [hpermId.mem_iff]
    simp
  refine ⟨h.bound, h.idle, h.timer, ?_, ?_, ?_, ?_, ?_⟩
  · intro i hi
    rcases h.droppedGone i hi with ⟨h1, h2, h3⟩
    refine ⟨?_, h2, h3⟩
    rw [hmemId]
    rintro (hc | rfl)
    · exact h1 hc
    · exact absurd (h.fresh t.id (Or.inr (Or.inr (Or.inr hi)))) (Nat.lt_irrefl _)
  · intro i hi
    rcases hi with hq | hq | hq | hq
    · rcases (hmemId i).mp hq with hc | rfl
      · exact Nat.lt_trans (h.fresh i (Or.inl hc)) (Nat.lt_succ_self _)
      · exact Nat.lt_succ_self _
    · exact Nat.lt_trans (h.fresh i (Or.inr (Or.inl hq))) (Nat.lt_succ_self _)
    · exact Nat.lt_trans (h.fresh i (Or.inr (Or.inr (Or.inl hq)))) (Nat.lt_succ_self _)
    · exact Nat.lt_trans (h.fresh i (Or.inr (Or.inr (Or.inr hq)))) (Nat.lt_succ_self _)
  · apply hpermId.nodup_iff.mpr
    rw [List.nodup_append]
    refine ⟨h.qNodup, List.nodup_singleton _, ?_⟩
    intro i hi hit
    rcases List.mem_singleton.mp hit with rfl
    exact absurd (h.fresh _ (Or.inl hi)) (Nat.lt_irrefl _)
  · intro i hi
    rcases (hmemId i).mp hi with hc | rfl
    · exact h.qDisjoint i hc
    · constructor
      · intro hc
        exact absurd (h.fresh t.id (Or.inr (Or.inl hc))) (Nat.lt_irrefl _)
      · intro hc
        exact absurd (h.fresh t.id (Or.inr (Or.inr (Or.inl hc)))) (Nat.lt_irrefl _)
  · rw [sortDesc_push t (h.sorted.imp qRel_imp_wRel)]
    apply pairwise_pushInsert h.sorted
    intro y hy
    exact h.fresh y.id (Or.inl (List.mem_map_of_mem QTask.id hy))

theorem settleTask_inv {s : ThrottleState} (i : Nat) (h : ThrottleInv s) :
    ThrottleInv (ThrottleState.settleTask i s) := by
  unfold ThrottleState.settleTask
  by_cases hi : i ∈ s.active
  · rw [if_pos hi]
    have hproc : s.isProcessing = true := by
      cases hp : s.isProcessing
      · rw [h.idle hp] at hi
        simp at hi
      · rfl
    have hsub : List.Sublist (s.active.erase i) s.active := List.erase_sublist _ _
    have hbound : (s.active.erase i).length <= maxConcurrent :=
      Nat.le_trans hsub.length_le h.bound
    have hdg : ∀ j ∈ s.dropped,
        ¬ j ∈ s.queue.map QTask.id ∧ ¬ j ∈ s.active.erase i ∧ ¬ j ∈ i :: s.settled := by
      intro j hj
      rcases h.droppedGone j hj with ⟨h1, h2, h3⟩
      refine ⟨h1, fun hc => h2 (hsub.mem hc), ?_⟩
      intro hc
      rcases List.mem_cons.mp hc with rfl | hc'
      · exact h2 hi
      · exact h3 hc'
    have hfr : ∀ j, (j ∈ s.queue.map QTask.id ∨ j ∈ s.active.erase i ∨
        j ∈ i :: s.settled ∨ j ∈ s.dropped) → j < s.nextId := by
      intro j hj
      apply h.fresh
      rcases hj with hq | hq | hq | hq
      · exact Or.inl hq
      · exact Or.inr (Or.inl (hsub.mem hq))
      · rcases List.mem_cons.mp hq with rfl | hq'
        · exact Or.inr (Or.inl hi)
        · exact Or.inr (Or.inr (Or.inl hq'))
      · exact Or.inr (Or.inr (Or.inr hq))
    have hqd : ∀ j ∈ s.queue.map QTask.id,
        ¬ j ∈ s.active.erase i ∧ ¬ j ∈ i :: s.settled := by
      intro j hj
      rcases h.qDisjoint j hj with ⟨h1, h2⟩
      refine ⟨fun hc => h1 (hsub.mem hc), ?_⟩
      intro hc
      rcases List.mem_cons.mp hc with rfl | hc'
      · exact h1 hi
      · exact h2 hc'
    by_cases hcont : ((s.active.erase i).isEmpty && s.isProcessing) = true
    · rw [if_pos hcont]
      have hempty : s.active.erase i = [] := by
        have hpair : (s.active.erase i).isEmpty = true ∧ s.isProcessing = true := by
          simpa using hcont
        exact List.isEmpty_iff.mp hpair.1
      by_cases hqe : s.queue.isEmpty = true
      · rw [if_pos hqe]
        refine ⟨hbound, fun _ => hempty, ?_, hdg, hfr, h.qNodup, hqd, h.sorted⟩
        intro d hd
        rcases h.timer d hd with ⟨u, hu, hmem⟩
        exact ⟨u, hu, List.mem_cons_of_mem _ hmem⟩
      · rw [if_neg hqe]
        refine ⟨hbound, fun _ => hempty, ?_, hdg, hfr, h.qNodup, hqd, h.sorted⟩
        intro d hd
        rcases List.mem_cons.mp hd with rfl | hd'
        · exact ⟨s.now, rfl, List.mem_cons_self _ _⟩
        · rcases h.timer d hd' with ⟨u, hu, hmem⟩
          exact ⟨u, hu, List.mem_cons_of_mem _ hmem⟩
    · rw [if_neg hcont]
      refine ⟨hbound, ?_, h.timer, hdg, hfr, h.qNodup, hqd, h.sorted⟩
      intro hfalse
      rw [hproc] at hfalse
      simp at hfalse
  · rw [if_neg hi]
    exact h

theorem timerFire_inv {s : ThrottleState} (d : Nat) (h : ThrottleInv s) :
    ThrottleInv (ThrottleState.timerFire d s) := by
  unfold ThrottleState.timerFire
  by_cases hg : (d ∈ s.timers && d <= s.now : Bool) = true
  · rw [if_pos hg]
    apply processQueue_inv
    refine ⟨h.bound, h.idle, ?_, h.droppedGone, h.fresh, h.qNodup, h.qDisjoint, h.sorted⟩
    intro e he
    exact h.timer e (List.mem_of_mem_erase he)
  · rw [if_neg hg]
    exact h

theorem cleanupQueue_inv {s : ThrottleState} (h : ThrottleInv s) :
    ThrottleInv (ThrottleState.cleanupQueue s) := by
  unfold ThrottleState.cleanupQueue
  have hkeep : List.Sublist (s.queue.filter (fun t => s.now - t.timestamp < staleLimit))
      s.queue := List.filter_sublist _
  have hgone : List.Sublist (s.queue.filter (fun t => !(s.now - t.timestamp < staleLimit)))
      s.queue := List.filter_sublist _
  have hkeepId : ∀ j, j ∈ (s.queue.filter
      (fun t => s.now - t.timestamp < staleLimit)).map QTask.id →
      j ∈ s.queue.map QTask.id := by
    intro j hj
    rcases List.mem_map.mp hj with ⟨t, ht, rfl⟩
    exact List.mem_map_of_mem _ (hkeep.mem ht)
  have hgoneId : ∀ j, j ∈ (s.queue.filter
      (fun t => !(s.now - t.timestamp < staleLimit))).map QTask.id →
      j ∈ s.queue.map QTask.id := by
    intro j hj
    rcases List.mem_map.mp hj with ⟨t, ht, rfl⟩
    exact List.mem_map_of_mem _ (hgone.mem ht)
  refine ⟨h.bound, h.idle, h.timer, ?_, ?_, ?_, ?_, ?_⟩
  · intro j hj
    rcases List.mem_append.mp hj with hj' | hj'
    · rcases List.mem_map.mp hj' with ⟨t, ht, rfl⟩
      have htq : t ∈ s.queue := hgone.mem ht
      have htnot : ¬ (s.now - t.timestamp < staleLimit) := by
        have h4 := (List.mem_filter.mp ht).2
        simpa using h4
      rcases h.qDisjoint t.id (List.mem_map_of_mem _ htq) with ⟨h1, h2⟩
      refine ⟨?_, h1, h2⟩
      intro hc
      rcases List.mem_map.mp hc with ⟨u, hu, hid⟩
      have huq : u ∈ s.queue := hkeep.mem hu
      have hult : s.now - u.timestamp < staleLimit := by
        have h3 := (List.mem_filter.mp hu).2
        simpa using h3
      have hut : u = t := List.inj_on_of_nodup_map h.qNodup huq htq hid
      rw [hut] at hult
      exact htnot hult
    · rcases h.droppedGone j hj' with ⟨h1, h2, h3⟩
      exact ⟨fun hc => h1 (hkeepId j hc), h2, h3⟩
  · intro j hj
    apply h.fresh
    rcases hj with hq | hq | hq | hq
    · exact Or.inl (hkeepId j hq)
    · exact Or.inr (Or.inl hq)
    · exact Or.inr (Or.inr (Or.inl hq))
    · rcases List.mem_append.mp hq with hq' | hq'
      · exact Or.inl (hgoneId j hq')
      · exact Or.inr (Or.inr (Or.inr hq'))
  · exact List.Nodup.sublist (hkeep.map QTask.id) h.qNodup
  · intro j hj
    exact h.qDisjoint j (hkeepId j hj)
  · exact List.Pairwise.sublist hkeep h.sorted

theorem tick_inv {s : ThrottleState} (d : Nat) (h : ThrottleInv s) :
    ThrottleInv (ThrottleState.tick d s) := by
  exact ⟨h.bound, h.idle, h.timer, h.droppedGone, h.fresh, h.qNodup, h.qDisjoint, h.sorted⟩

theorem throttleStep_inv {s : ThrottleState} (c : ThrottleCmd) (h : ThrottleInv s) :
    ThrottleInv (throttleStep s c) := by
  cases c with
  | submit p => exact queueRequest_inv p h
  | settle i => exact settleTask_inv i h
  | timerFire d => exact timerFire_inv d h
  | cleanup => exact cleanupQueue_inv h
  | tick d => exact tick_inv d h

theorem throttleInv_init : ThrottleInv ThrottleState.init := by
  refine ⟨?_, ?_, ?_, ?_, ?_, ?_, ?_, ?_⟩ <;> simp [ThrottleState.init, maxConcurrent]

theorem throttleInv_foldl (s : ThrottleState) (h : ThrottleInv s)
    (cmds : List ThrottleCmd) : ThrottleInv (cmds.foldl throttleStep s) := by
  induction cmds generalizing s with
  | nil => exact h
  | cons c cs ih => exact ih _ (throttleStep_inv c h)

theorem throttleInv_run (cmds : List ThrottleCmd) : ThrottleInv (throttleRun cmds) :=
  throttleInv_foldl _ throttleInv_init cmds

theorem throttleStep_dropped_mono {s : ThrottleState} {i : Nat} (c : ThrottleCmd)
    (h : i ∈ s.dropped) : i ∈ (throttleStep s c).dropped := by
  cases c with
  | submit p =>
    unfold throttleStep ThrottleState.queueRequest ThrottleState.processQueue
    dsimp only
    split
    · exact h
    · exact h
  | settle j =>
    unfold throttleStep ThrottleState.settleTask
    dsimp only
    split
    · split
      · split
        · exact h
        · exact h
      · exact h
    · exact h
  | timerFire d =>
    unfold throttleStep ThrottleState.timerFire ThrottleState.processQueue
    dsimp only
    split
    · split
      · exact h
      · exact h
    · exact h
  | cleanup =>
    unfold throttleStep ThrottleState.cleanupQueue
    exact List.mem_append_right _ h
  | tick d =>
    exact h

theorem foldl_dropped_mono {s : ThrottleState} {i : Nat}
    (cmds : List ThrottleCmd) (h : i ∈ s.dropped) :
    i ∈ (cmds.foldl throttleStep s).dropped := by
  induction cmds generalizing s with
  | nil => exact h
  | cons c cs ih => exact ih (throttleStep_dropped_mono c h)

theorem throttleRun_append (cmds rest : List ThrottleCmd) :
    throttleRun (cmds ++ rest) = rest.foldl throttleStep (throttleRun cmds) :=
  List.foldl_append _ _ _ _

theorem dedupRun_pending {ε α : Type} {s : RequestCache ε α} {key : String} {h : Nat}
    (hp : s.pendingRequests.lookup key = some h) (n : Nat) (o : Except ε α) :
    s.dedupRun key (List.replicate n (DedupEvent.call) ++ [DedupEvent.settle o]) =
      (s.settlePending key o, List.replicate n h) := by
  induction n with
  | zero =>
    simp [RequestCache.dedupRun]
  | succ n ih =>
    rw [List.replicate_succ, List.cons_append, RequestCache.dedupRun]
    simp only [RequestCache.deduplicate, hp, ih, List.replicate_succ]

theorem executeBatch_pos {ε α : Type} (n : Nat) (calls : List (Except ε α)) :
    executeBatch calls (n + 1) = some (calls.map settledValue) := by
  have haux : ∀ (fuel : Nat) (l : List (Except ε α)), l.length <= fuel →
      executeBatch l (n + 1) = some (l.map settledValue) := by
    intro fuel
    induction fuel with
    | zero =>
      intro l hl
      have hnil : l = [] := List.length_eq_zero.mp (Nat.le_zero.mp hl)
      subst hnil
      simp [executeBatch, batchChunks]
    | succ f ih =>
      intro l hl
      cases l with
      | nil => simp [executeBatch, batchChunks]
      | cons b bs =>
        have hdrop : ((b :: bs).drop (n + 1)).length <= f := by
          simp only [List.length_drop, List.length_cons]
          simp only [List.length_cons] at hl
          omega
        have hrec := ih _ hdrop
        unfold executeBatch at hrec ⊢
        rw [batchChunks]
        cases hbc : batchChunks (n + 1) ((b :: bs).drop (n + 1)) with
        | none =>
          rw [hbc] at hrec
          simp at hrec
        | some cs =>
          rw [hbc] at hrec
          simp only [Option.map_some'] at hrec ⊢
          have hflat : (cs.map (List.map settledValue)).flatten =
              ((b :: bs).drop (n + 1)).map settledValue := Option.some.inj hrec
          simp only [List.map_cons, List.flatten_cons, hflat, ← List.map_append,
            List.take_append_drop]
  exact haux calls.length calls (Nat.le_refl _)

theorem lookup_filter_self {β : Type} (l : List (String × β)) (key : String) :
    (l.filter (fun kv => !(kv.1 == key))).lookup key = none := by
  induction l with
  | nil => rfl
  | cons kv tl ih =>
    by_cases h : kv.1 = key
    · simp [List.filter_cons, h, ih]
    · have hbeq : (kv.1 == key) = false := beq_eq_false_iff_ne.mpr h
      have hbeq' : (key == kv.1) = false := beq_eq_false_iff_ne.mpr (Ne.symm h)
      simp [List.filter_cons, hbeq, List.lookup, hbeq', ih]

/-- C1: for every number of additional callers that invoke the deduplicator for
key "k" while an operation for that key is in flight, and every settled outcome
`o` (success or failure), the underlying operation is invoked exactly once
(`invocations = 1`), every caller receives the same promise handle `0` — hence
the same settled outcome, recorded for handle `0` — the pending registration is
removed on settlement regardless of outcome (`pendingRequests = []`), and a
later `deduplicate` call for the same key invokes the operation afresh
(`invocations` becomes 2). -/
theorem claim_C1 {ε α : Type} (n : Nat) (o : Except ε α) :
    ((RequestCache.empty ε α).dedupRun "k"
        (DedupEvent.call :: (List.replicate n DedupEvent.call ++ [DedupEvent.settle o])) =
      ({ cache := [], cacheTimeout := 5 * 60 * 1000, pendingRequests := [],
         settledOutcomes := [(0, o)], invocations := 1, nextHandle := 1 },
       List.replicate (n + 1) 0)) ∧
    (({ cache := [], cacheTimeout := 5 * 60 * 1000, pendingRequests := [],
        settledOutcomes := [(0, o)], invocations := 1,
        nextHandle := 1 } : RequestCache ε α).deduplicate "k").2.1 = true ∧
    (({ cache := [], cacheTimeout := 5 * 60 * 1000, pendingRequests := [],
        settledOutcomes := [(0, o)], invocations := 1,
        nextHandle := 1 } : RequestCache ε α).deduplicate "k").2.2.invocations = 2 := by
  refine ⟨?_, rfl, rfl⟩
  rw [RequestCache.dedupRun]
  have hfirst : (RequestCache.empty ε α).deduplicate "k" =
      (0, true,
        { cache := [], cacheTimeout := 5 * 60 * 1000, pendingRequests := [("k", 0)],
          settledOutcomes := [], invocations := 1, nextHandle := 1 }) := rfl
  rw [hfirst]
  dsimp only
  rw [@dedupRun_pending ε α _ "k" 0 (by simp [List.lookup]) n o]
  simp [RequestCache.settlePending, List.lookup, List.filter, List.replicate_succ]

/-- C3 counterexample: at the exact boundary `Tp - T = ttl` the claim demands
absence, but `RequestCache.get` uses a strict `now - timestamp > cacheTimeout`
test (requestCache.js line 21), so a value stored at 0 and read at exactly
`ttl = 300000` is still returned. -/
theorem claim_C3_counterexample :
    (((RequestCache.empty Unit Nat).set "k" 42 0).get "k" (5 * 60 * 1000)).1 = some 42 ∧
    ¬ (5 * 60 * 1000 - 0 < (RequestCache.empty Unit Nat).cacheTimeout) := by
  decide

/-- C3 (amended): `get(key)` at time `Tp` after a `set` at time `T` returns the
stored value iff `Tp - T <= ttl`; every read with `Tp - T > ttl` returns absent
and deletes the entry as a side effect of the lookup, so no value older than
`ttl` is ever returned. -/
theorem claim_C3 {ε α : Type} (s : RequestCache ε α) (key : String) (v : α)
    (T Tp : Nat) :
    ((((s.set key v T).get key Tp).1 = some v) ↔ Tp - T <= s.cacheTimeout) ∧
    (Tp - T > s.cacheTimeout →
      (((s.set key v T).get key Tp).1 = none ∧
       ((s.set key v T).get key Tp).2.cache.lookup key = none)) := by
  unfold RequestCache.set RequestCache.get
  simp only [List.lookup, beq_self_eq_true]
  by_cases h : Tp - T > s.cacheTimeout
  · rw [if_pos h]
    constructor
    · simp [Nat.not_le.mpr h]
    · intro _
      exact ⟨rfl, lookup_filter_self _ _⟩
  · rw [if_neg h]
    constructor
    · simp [Nat.not_lt.mp h]
    · intro hc
      exact absurd hc h

/-- C3 witness: a concrete expired read (stored at 0, read at 300001 with the
default 5-minute ttl) returns absent and evicts the entry. -/
theorem claim_C3_witness :
    (((RequestCache.empty Unit Nat).set "k" 42 0).get "k" 300001).1 = none ∧
    (((RequestCache.empty Unit Nat).set "k" 42 0).get "k" 300001).2.cache.lookup "k"
      = none :=
  (claim_C3 (RequestCache.empty Unit Nat) "k" 42 0 300001).2 (by decide)

/-- C4 counterexample: `getCacheTimeout` assigns the master-data url a 10-minute
tier, yet a cache entry under that url's key, 6 minutes old (within the tier), is
evicted at lookup — the timeout the cache applies is the flat instance default,
not the tier. -/
theorem claim_C4_counterexample :
    getCacheTimeout "/kategori/get-kategori" "GET" = 600000 ∧
    360000 < 600000 ∧
    (((RequestCache.empty Unit Nat).set "GET:/kategori/get-kategori:" 1 0).get
        "GET:/kategori/get-kategori:" 360000).1 = none := by
  decide

/-- C4 (amended): `getCacheTimeout` computes the tiered ttl — 10 minutes for
master data, 5 for user data, 2 for dynamic data, 5 as the fallback, and 0 for
mutating methods — but neither `RequestCache.get` nor the background sweep
consults it: both apply the fixed 5-minute `cacheTimeout` to every entry
regardless of category, and `set` stores entries for mutating methods like any
other, so nothing in the cache itself prevents a mutation response from being
cached and served. -/
theorem claim_C4 :
    getCacheTimeout "/kategori/get-kategori" "GET" = 600000 ∧
    getCacheTimeout "/tingkatan/get-tingkatan" "GET" = 600000 ∧
    getCacheTimeout "/pendidikan/get-pendidikan" "GET" = 600000 ∧
    getCacheTimeout "/user/profile" "GET" = 300000 ∧
    getCacheTimeout "/kelas/get-kelas" "GET" = 300000 ∧
    getCacheTimeout "/kuis/get-kuis" "GET" = 120000 ∧
    getCacheTimeout "/soal/get-soal" "GET" = 120000 ∧
    getCacheTimeout "/lainnya" "GET" = 300000 ∧
    getCacheTimeout "/kategori/get-kategori" "POST" = 0 ∧
    getCacheTimeout "/kategori/get-kategori" "put" = 0 ∧
    (((RequestCache.empty Unit Nat).set "GET:/kategori/get-kategori:" 1 0).get
        "GET:/kategori/get-kategori:" 300000).1 = some 1 ∧
    (((RequestCache.empty Unit Nat).set "GET:/kategori/get-kategori:" 1 0).get
        "GET:/kategori/get-kategori:" 300001).1 = none ∧
    (((RequestCache.empty Unit Nat).set "GET:/kategori/get-kategori:" 1 0).cacheCleanup
        300000).cache.lookup "GET:/kategori/get-kategori:" = some ⟨1, 0⟩ ∧
    (((RequestCache.empty Unit Nat).set "GET:/kategori/get-kategori:" 1 0).cacheCleanup
        300001).cache.lookup "GET:/kategori/get-kategori:" = none ∧
    (((RequestCache.empty Unit Nat).set "POST:/kelas/tambah-kelas:" 2 0).get
        "POST:/kelas/tambah-kelas:" 1000).1 = some 2 := by
  decide

/-- C10: `clear()` empties the cache map and the pending-request map, including
registrations whose operation is still in flight; a subsequent `deduplicate`
call for such a key finds no registration and invokes the supplied operation
again, starting a second underlying call while the first is still unsettled. -/
theorem claim_C10 {ε α : Type} (s : RequestCache ε α) (key : String) (h : Nat)
    (hp : s.pendingRequests.lookup key = some h) :
    s.clear.cache = [] ∧
    s.clear.pendingRequests = [] ∧
    (s.clear.deduplicate key).2.1 = true ∧
    (s.clear.deduplicate key).2.2.invocations = s.invocations + 1 := by
  refine ⟨rfl, rfl, rfl, rfl⟩

/-- C10 witness: a state with an in-flight registration for "k", cleared and then
deduplicated again. -/
theorem claim_C10_witness :
    ((RequestCache.empty Unit Nat).deduplicate "k").2.2.clear.cache = [] ∧
    ((RequestCache.empty Unit Nat).deduplicate "k").2.2.clear.pendingRequests = [] ∧
    (((RequestCache.empty Unit Nat).deduplicate "k").2.2.clear.deduplicate "k").2.1
      = true ∧
    (((RequestCache.empty Unit Nat).deduplicate "k").2.2.clear.deduplicate "k").2.2.invocations
      = ((RequestCache.empty Unit Nat).deduplicate "k").2.2.invocations + 1 :=
  claim_C10 ((RequestCache.empty Unit Nat).deduplicate "k").2.2 "k" 0 (by decide)

/-- C2: the claim is right and the code is wrong.  For an operation that fails on
every attempt, with the default `retryCount = 3`, `fetchData` invokes the
operation exactly once and the caller's promise never settles: the retry path
re-enters `fetchData`, finds the key's own `requestPromise` still registered in
`pendingRequests` (the `finally` that would remove it runs only after that very
promise settles), and awaits it — a circular wait, so neither the claimed
`retryCount + 1 = 4` invocations nor a surfaced terminal failure occur. -/
theorem claim_C2 :
    fetchData (fun _ => (Except.error 7 : Except Nat Nat)) 3 false
      ⟨none, false, 0, 0⟩ =
    (FetchResult.unsettled, ⟨none, true, 1, 1⟩) := by
  simp [fetchData.eq_def]

/-- C8 counterexample: with batch size 0 and a non-empty call list, the loop
`for (let i = 0; i < apiCalls.length; i += batchSize)` never advances, so the
batch runner never returns a result list (modelled as `none`), contradicting the
claim for "every batch size". -/
theorem claim_C8_counterexample :
    executeBatch ([Except.error 0] : List (Except Nat Nat)) 0 = none := by
  simp [executeBatch, batchChunks]

/-- C8 (amended): for every input list of operations and every positive batch
size, the batch runner returns a list positionally aligned with the input and of
the same length, in which each failed operation's slot holds `none` (null) and
each successful operation's slot holds its result; no failure aborts or skips
siblings. -/
theorem claim_C8 {ε α : Type} (calls : List (Except ε α)) (n : Nat) :
    executeBatch calls (n + 1) = some (calls.map settledValue) ∧
    (calls.map settledValue).length = calls.length :=
  ⟨executeBatch_pos n calls, by simp⟩

/-- C5: in every state of the throttle event loop reachable from startup by any
sequence of submits, settlements, timer firings, staleness sweeps and clock
advances — including submits during an active drain or during the inter-batch
delay window — the number of dispatched-but-unsettled tasks is at most
`maxConcurrent`. -/
theorem claim_C5 (cmds : List ThrottleCmd) :
    (throttleRun cmds).active.length <= maxConcurrent :=
  (throttleInv_run cmds).bound

/-- C6 counterexample: tasks submitted back-to-back with priorities [1, 5, 1, 10]
to an idle throttle are NOT dispatched in the order [10, 5, 1st-1, 2nd-1]: the
first submit starts a drain immediately, so the first priority-1 task (id 0) is
dispatched first, and the remaining tasks follow as [10, 5, 1] (ids [3, 1, 2]). -/
theorem claim_C6_counterexample :
    (throttleRun [ThrottleCmd.submit 1, ThrottleCmd.submit 5, ThrottleCmd.submit 1,
        ThrottleCmd.submit 10, ThrottleCmd.settle 0, ThrottleCmd.tick 100,
        ThrottleCmd.timerFire 100]).log =
      [ThrottleEvent.dispatch 100 Trigger.byTimer [3, 1, 2],
       ThrottleEvent.batchDone 0,
       ThrottleEvent.dispatch 0 Trigger.bySubmit [0]] := by
  decide

/-- C6 (amended): in every reachable state the waiting queue is sorted by
descending numeric priority and is FIFO among equal priorities (submission ids
increase along equal-priority runs), and each drain dispatches from the queue
front; consequently tasks with priorities [1, 5, 1, 10] ENQUEUED WHILE A DRAIN IS
ACTIVE (ids 1-4 below, behind a dummy task 0) are dispatched in the order
[10, 5, first-submitted 1, second-submitted 1] within the concurrency bound.
A submit to an idle throttle, however, is dispatched immediately, ahead of any
later higher-priority submission. -/
theorem claim_C6 :
    (∀ cmds : List ThrottleCmd, List.Pairwise qRel (throttleRun cmds).queue) ∧
    (throttleRun [ThrottleCmd.submit 0, ThrottleCmd.submit 1, ThrottleCmd.submit 5,
        ThrottleCmd.submit 1, ThrottleCmd.submit 10, ThrottleCmd.settle 0,
        ThrottleCmd.tick 100, ThrottleCmd.timerFire 100, ThrottleCmd.settle 4,
        ThrottleCmd.settle 2, ThrottleCmd.settle 1, ThrottleCmd.tick 100,
        ThrottleCmd.timerFire 200]).log =
      [ThrottleEvent.dispatch 200 Trigger.byTimer [3],
       ThrottleEvent.batchDone 100,
       ThrottleEvent.dispatch 100 Trigger.byTimer [4, 2, 1],
       ThrottleEvent.batchDone 0,
       ThrottleEvent.dispatch 0 Trigger.bySubmit [0]] :=
  ⟨fun cmds => (throttleInv_run cmds).sorted, by decide⟩

/-- C7 counterexample: a batch settles at time 5 and a submit at time 10
dispatches the next batch immediately — only 5 ms after the previous batch's
settlement, far less than `requestDelay = 100` — because `queueRequest` calls
`processQueue` directly and `isProcessing` is already false. -/
theorem claim_C7_counterexample :
    (throttleRun [ThrottleCmd.submit 5, ThrottleCmd.tick 5, ThrottleCmd.settle 0,
        ThrottleCmd.tick 5, ThrottleCmd.submit 7]).log =
      [ThrottleEvent.dispatch 10 Trigger.bySubmit [1],
       ThrottleEvent.batchDone 5,
       ThrottleEvent.dispatch 0 Trigger.bySubmit [0]] ∧
    10 - 5 < requestDelay := by
  decide

/-- C7 (amended): the `requestDelay` gap is guaranteed only on the timer path:
every pending inter-batch timer deadline `d` equals `u + requestDelay` for some
batch completion recorded at time `u`, and a timer firing can add a dispatch
event to the log only at a time `now >= d` — i.e. at least `requestDelay` after
the batch completion that scheduled it.  A submit arriving while no drain is
active dispatches immediately, with no minimum gap after the previous batch's
settlement. -/
theorem claim_C7 (cmds : List ThrottleCmd) (d : Nat)
    (hd : d ∈ (throttleRun cmds).timers) :
    (∃ u, d = u + requestDelay ∧
      ThrottleEvent.batchDone u ∈ (throttleRun cmds).log) ∧
    (∀ e : ThrottleEvent,
      ((throttleRun cmds).timerFire d).log = e :: (throttleRun cmds).log →
      (∃ ids, e = ThrottleEvent.dispatch (throttleRun cmds).now Trigger.byTimer ids) ∧
        d <= (throttleRun cmds).now) := by
  refine ⟨(throttleInv_run cmds).timer d hd, ?_⟩
  intro e he
  unfold ThrottleState.timerFire at he
  by_cases hg : ((d ∈ (throttleRun cmds).timers : Bool) &&
      (d <= (throttleRun cmds).now : Bool)) = true
  · rw [if_pos hg] at he
    have hle : d <= (throttleRun cmds).now := by
      have hpair := hg
      simp only [Bool.and_eq_true, decide_eq_true_eq] at hpair
      exact hpair.2
    unfold ThrottleState.processQueue at he
    by_cases hg2 : (((throttleRun cmds).isProcessing ||
        (throttleRun cmds).queue.isEmpty) = true)
    · rw [if_pos hg2] at he
      have hlen := congrArg List.length he
      simp at hlen
    · rw [if_neg hg2] at he
      dsimp only at he
      have hcons := (List.cons.injEq _ _ _ _).mp he.symm
      exact ⟨⟨_, hcons.1⟩, hle⟩
  · rw [if_neg hg] at he
    have hlen := congrArg List.length he
    simp at hlen

/-- C7 witness: after dispatching task 0 and enqueuing task 1, settlement of the
batch at time 0 schedules a timer with deadline 100 = 0 + requestDelay. -/
theorem claim_C7_witness :
    ∃ u, 100 = u + requestDelay ∧
      ThrottleEvent.batchDone u ∈ (throttleRun [ThrottleCmd.submit 3,
        ThrottleCmd.submit 4, ThrottleCmd.settle 0]).log :=
  (claim_C7 [ThrottleCmd.submit 3, ThrottleCmd.submit 4, ThrottleCmd.settle 0] 100
    (by decide)).1

/-- C9: a queued task whose age has reached the 30-second horizon at the time of
a staleness sweep is removed from the queue by the sweep without being
dispatched and without its outcome being settled (the sweep changes neither the
dispatched set, the settled set, nor the event log), and its caller is never
notified afterwards: in every later state its id is in the dropped set and never
appears among the settled, the dispatched-unsettled, or the re-queued tasks —
the drop is silent and the outcome handle stays permanently unsettled. -/
theorem claim_C9 (cmds : List ThrottleCmd) (t : QTask) (rest : List ThrottleCmd)
    (htq : t ∈ (throttleRun cmds).queue)
    (hold : staleLimit <= (throttleRun cmds).now - t.timestamp) :
    (¬ t ∈ (throttleRun cmds).cleanupQueue.queue) ∧
    t.id ∈ (throttleRun cmds).cleanupQueue.dropped ∧
    (throttleRun cmds).cleanupQueue.settled = (throttleRun cmds).settled ∧
    (throttleRun cmds).cleanupQueue.active = (throttleRun cmds).active ∧
    (throttleRun cmds).cleanupQueue.log = (throttleRun cmds).log ∧
    (¬ t.id ∈ (throttleRun (cmds ++ ThrottleCmd.cleanup :: rest)).settled) ∧
    (¬ t.id ∈ (throttleRun (cmds ++ ThrottleCmd.cleanup :: rest)).active) ∧
    (¬ t.id ∈ (throttleRun (cmds ++ ThrottleCmd.cleanup :: rest)).queue.map QTask.id) := by
  have hnot : ¬ ((throttleRun cmds).now - t.timestamp < staleLimit) :=
    Nat.not_lt.mpr hold
  have hgone : t ∈ (throttleRun cmds).queue.filter
      (fun u => !((throttleRun cmds).now - u.timestamp < staleLimit)) := by
    rw [List.mem_filter]
    exact ⟨htq, by simpa using hnot⟩
  have hdrop : t.id ∈ (throttleRun cmds).cleanupQueue.dropped := by
    unfold ThrottleState.cleanupQueue
    exact List.mem_append_left _ (List.mem_map_of_mem QTask.id hgone)
  have hrunEq : throttleRun (cmds ++ ThrottleCmd.cleanup :: rest) =
      rest.foldl throttleStep (throttleRun cmds).cleanupQueue := by
    rw [throttleRun_append]
    rfl
  have hfinDrop : t.id ∈ (throttleRun (cmds ++ ThrottleCmd.cleanup :: rest)).dropped := by
    rw [hrunEq]
    exact foldl_dropped_mono rest hdrop
  have hfinInv : ThrottleInv (throttleRun (cmds ++ ThrottleCmd.cleanup :: rest)) :=
    throttleInv_run _
  have hg := hfinInv.droppedGone t.id hfinDrop
  refine ⟨?_, hdrop, rfl, rfl, rfl, hg.2.2, hg.2.1, hg.1⟩
  intro hc
  unfold ThrottleState.cleanupQueue at hc
  dsimp only at hc
  have hkeep := (List.mem_filter.mp hc).2
  simp only [decide_eq_true_eq] at hkeep
  exact hnot hkeep

/-- C9 witness: task 1 (submitted at time 0, still queued behind the in-flight
task 0) has age exactly 30000 at the sweep at time 30000; it is dropped and,
even after a further submit, never settled, dispatched, or re-queued. -/
theorem claim_C9_witness :
    (1 ∈ (throttleRun [ThrottleCmd.submit 3, ThrottleCmd.submit 4,
        ThrottleCmd.tick 30000]).cleanupQueue.dropped) ∧
    ¬ (1 ∈ (throttleRun ([ThrottleCmd.submit 3, ThrottleCmd.submit 4,
        ThrottleCmd.tick 30000] ++ ThrottleCmd.cleanup ::
        [ThrottleCmd.submit 9])).settled) := by
  have hc := claim_C9 [ThrottleCmd.submit 3, ThrottleCmd.submit 4, ThrottleCmd.tick 30000]
    ⟨1, 4, 0⟩ [ThrottleCmd.submit 9] (by decide) (by decide)
  exact ⟨hc.2.1, hc.2.2.2.2.2.1⟩
